import Mathlib

/-!
Shallow embedding of the SCADA data-extraction repository
(processor/management/commands and api), used to verify the claims of its
natural-language specification.

Conventions used throughout:
* machine floats of the source become rationals; the value of a metric cell
  is modelled by `RawCell` (a cell either parses to a number or fails to),
  since the claims under study only distinguish "coerces" from "fails to
  coerce";
* a relational table is a list of rows; the Postgres upsert
  (`bulk_create(update_conflicts=True)` in extraction.py, the
  `ON CONFLICT ... DO UPDATE` statements of the import commands) is modelled
  as a sequential insert-or-update pass over that list, keyed by the table's
  uniqueness key;
* timestamps of the ingestion paths are wall-clock `DateTime` records
  (year, month, day, hour, minute, second, microsecond); timezone attachment
  (`make_aware`) does not change any of these fields and is omitted;
* timestamps of the reconciler / API are naturals (seconds since an epoch),
  since those code paths only compare, sort and align timestamps.
-/

namespace Scada

/-! ## Generic upsert store

Models a table with uniqueness key `κ` and a record of metric columns `μ`.
`upsertOne` is the effect of sending one row through
`INSERT ... ON CONFLICT (key) DO UPDATE SET metrics = EXCLUDED.metrics`
(import_inhouse.py, import_gtmw.py, import_enercon_scada.py bulk_upsert) or
through `bulk_create(update_conflicts=True, unique_fields, update_fields)`
(extraction.py save_batch): the row whose key already exists has its metric
columns overwritten, a row with a new key is appended. -/

structure Entry (κ μ : Type) where
  key : κ
  val : μ
  deriving DecidableEq, Repr

def upsertOne {κ μ : Type} [DecidableEq κ] : List (Entry κ μ) → Entry κ μ → List (Entry κ μ)
  | [], r => [r]
  | e :: s, r => if e.key = r.key then ⟨e.key, r.val⟩ :: s else e :: upsertOne s r

/-- Sequential application of a whole batch of rows, in order: this is the
store-level effect of save_batch / bulk_upsert on one batch. -/
def upsertBatch {κ μ : Type} [DecidableEq κ] (s b : List (Entry κ μ)) : List (Entry κ μ) :=
  b.foldl upsertOne s

def keysOf {κ μ : Type} (s : List (Entry κ μ)) : List κ :=
  s.map Entry.key

def storeLookup {κ μ : Type} [DecidableEq κ] (s : List (Entry κ μ)) (k : κ) : Option μ :=
  (s.find? (fun e => decide (e.key = k))).map Entry.val

/-- Value of the last row of the batch carrying key `k`, if any: under
sequential upsert this is the value that ends up stored for `k`. -/
def lastVal {κ μ : Type} [DecidableEq κ] : List (Entry κ μ) → κ → Option μ
  | [], _ => none
  | e :: s, k =>
    match lastVal s k with
    | some v => some v
    | none => if e.key = k then some e.val else none

/-! ## Wall-clock timestamps and the ingestion paths -/

structure DateTime where
  year : Nat
  month : Nat
  day : Nat
  hour : Nat
  minute : Nat
  second : Nat
  microsecond : Nat
  deriving DecidableEq, Repr

/-- Embeds `dt_obj.replace(second=0, microsecond=0)` of extraction.py line 142. -/
def DateTime.truncateToMinute (dt : DateTime) : DateTime :=
  { dt with second := 0, microsecond := 0 }

def digitVal (c : Char) : Option Nat :=
  if c.isDigit then some (c.toNat - '0'.toNat) else none

def parse2 (a b : Char) : Option Nat := do
  let x ← digitVal a
  let y ← digitVal b
  pure (10 * x + y)

def parse4 (a b c d : Char) : Option Nat := do
  let x ← parse2 a b
  let y ← parse2 c d
  pure (100 * x + y)

/-- Embeds `pd.to_datetime(chunk["date"], format="%d-%m-%Y %H:%M:%S", errors="coerce")`
of import_enercon_scada.py lines 70-74 (also the identical call of
import_inhouse.py): a day-first fixed-format parse that keeps full seconds
precision and yields null on failure.  Field validity is checked with the
uniform bounds day 1-31, month 1-12, hour < 24, minute < 60, second < 60. -/
def parseEnerconDate (s : String) : Option DateTime :=
  match s.toList with
  | [d1, d2, '-', m1, m2, '-', y1, y2, y3, y4, ' ', h1, h2, ':', n1, n2, ':', s1, s2] => do
    let day ← parse2 d1 d2
    let month ← parse2 m1 m2
    let year ← parse4 y1 y2 y3 y4
    let hour ← parse2 h1 h2
    let minute ← parse2 n1 n2
    let sec ← parse2 s1 s2
    if 1 ≤ day ∧ day ≤ 31 ∧ 1 ≤ month ∧ month ≤ 12 ∧ hour < 24 ∧ minute < 60 ∧ sec < 60 then
      pure ⟨year, month, day, hour, minute, sec, 0⟩
    else
      none
  | _ => none

/-- Content of one spreadsheet cell as seen by numeric coercion: it either
parses to a number or it does not (which value of RawCell a given Python
object maps to is decided by the Python float()/pd.to_numeric machinery,
which we do not re-implement). -/
inductive RawCell where
  | num (q : ℚ)
  | bad
  deriving DecidableEq, Repr

/-- Embeds the local to_float of extraction.py lines 159-163: a failed float()
coercion yields 0.0. -/
def to_float : RawCell → ℚ
  | .num q => q
  | .bad => 0

/-- Embeds `pd.to_numeric(df[col], errors="coerce")` of import_gtmw.py
lines 93-94: a failed coercion yields null (NaN, pandas' null marker). -/
def to_numeric : RawCell → Option ℚ
  | .num q => some q
  | .bad => none

/-- Cells of one raw row that belong to one asset's 5-column block
(extraction.py locno_map values). -/
structure MetricCells where
  outdoor_temp : RawCell
  wind_speed : RawCell
  nacelle_pos : RawCell
  active_power : RawCell
  frequency : RawCell
  deriving DecidableEq, Repr

/-- Row shape of the scada_data table (processor/models.py SCADAData, the
fields written by extraction.py). -/
structure SCADARecord where
  locno : String
  datetime : DateTime
  outdoor_temp : ℚ
  wind_speed : ℚ
  nacelle_pos : ℚ
  active_power : ℚ
  frequency : ℚ
  deriving DecidableEq, Repr

/-- Embeds the SCADAData(...) construction of extraction.py lines 165-173:
each metric cell goes through to_float. -/
def mkSCADARecord (locno : String) (dt : DateTime) (m : MetricCells) : SCADARecord :=
  ⟨locno, dt, to_float m.outdoor_temp, to_float m.wind_speed, to_float m.nacelle_pos,
    to_float m.active_power, to_float m.frequency⟩

/-- Embeds the per-row body of extraction.py process_file lines 124-175: a row
whose timestamp is null is dropped; otherwise the parsed timestamp has its
seconds and microseconds zeroed and one SCADAData record is built per asset
of the locno map present in the row. -/
def extractionProcessRow (dtRaw : Option DateTime) (assets : List (String × MetricCells)) :
    List SCADARecord :=
  match dtRaw with
  | none => []
  | some dt =>
    let dt2 := dt.truncateToMinute
    assets.map (fun p => mkSCADARecord p.1 dt2 p.2)

/-- Raw shape of one enercon chunk row after the column renaming of
import_enercon_scada.py lines 60-67. -/
structure EnerconRaw where
  date : String
  asset_name : String
  active_power_generation : Option ℚ
  wind_direction_outside_nacelle : Option ℚ
  wind_speed_outside_nacelle : Option ℚ
  temperature_outside_nacelle : Option ℚ
  deriving DecidableEq, Repr

/-- Row shape of the scada_data_enercon table (processor/models.py
ScadaDataEnercon). -/
structure EnerconRecord where
  date : DateTime
  asset_name : String
  active_power_generation : Option ℚ
  wind_direction_outside_nacelle : Option ℚ
  wind_speed_outside_nacelle : Option ℚ
  temperature_outside_nacelle : Option ℚ
  deriving DecidableEq, Repr

/-- Embeds import_enercon_scada.py lines 69-96: the date cell is parsed with
the fixed day-first format, a row whose parse fails is skipped, and the
record appended for upsert carries the parsed timestamp unchanged (no
truncation of seconds) together with the metric values as they are. -/
def enerconProcessRow (r : EnerconRaw) : Option EnerconRecord :=
  match parseEnerconDate r.date with
  | none => none
  | some dt =>
    some ⟨dt, r.asset_name, r.active_power_generation, r.wind_direction_outside_nacelle,
      r.wind_speed_outside_nacelle, r.temperature_outside_nacelle⟩

/-- Row shape of the gtmw table (processor/models.py GTMW). -/
structure GtmwRecord where
  device : String
  date : DateTime
  quality : Option String
  misalignment_percent : Option ℚ
  avg_active_power : Option ℚ
  avg_ambient_temperature : Option ℚ
  avg_wind_speed : Option ℚ
  deriving DecidableEq, Repr

/-- Embeds the record construction of import_gtmw.py lines 85-105: the four
numeric columns go through pd.to_numeric(errors="coerce"), so a metric cell
that fails coercion is stored as null. -/
def mkGtmwRecord (device : String) (dt : DateTime) (quality : Option String)
    (c1 c2 c3 c4 : RawCell) : GtmwRecord :=
  ⟨device, dt, quality, to_numeric c1, to_numeric c2, to_numeric c3, to_numeric c4⟩

/-! ## Header detection and column partitioning (extraction.py process_file) -/

def charsStartWith : List Char → List Char → Bool
  | [], _ => true
  | _ :: _, [] => false
  | a :: as, b :: bs => a == b && charsStartWith as bs

def charsContain (needle : List Char) : List Char → Bool
  | [] => charsStartWith needle []
  | b :: bs => charsStartWith needle (b :: bs) || charsContain needle bs

/-- Embeds the test of extraction.py line 79-81: the first cell is lowered and
checked for the marker substring "local" (as in "Local Time"). -/
def markerFound (s : String) : Bool :=
  charsContain "local".toList (s.toList.map Char.toLower)

def headerRowAux (n : Nat) : List String → Option Nat
  | [] => none
  | s :: rest => if markerFound s then some n else headerRowAux (n + 1) rest

/-- Embeds the header-row search of extraction.py lines 77-83 over the probe
window (the first cells of the first up-to-10 rows): the index of the first
row whose first cell contains the marker, none when no row matches. -/
def headerRow (probe : List String) : Option Nat :=
  headerRowAux 0 probe

def splitWsAux (acc : List Char) : List Char → List String
  | [] => if acc.isEmpty then [] else [String.mk acc.reverse]
  | c :: cs =>
    if c.isWhitespace then
      if acc.isEmpty then splitWsAux [] cs
      else String.mk acc.reverse :: splitWsAux [] cs
    else splitWsAux (c :: acc) cs

/-- Embeds Python str.split() with no arguments (extraction.py line 105):
split on whitespace runs, dropping empty pieces. -/
def tokens (s : String) : List String :=
  splitWsAux [] s.toList

def tok2 (s : String) : String :=
  (tokens s).getD 1 ""

/-- Value record of the locno map of extraction.py lines 109-115: the five
column names of one asset's contiguous block. -/
structure LocnoParams where
  Outdoor_Temp : String
  Wind_Speed : String
  Nacelle_Pos : String
  Active_Power : String
  frequency : String
  deriving DecidableEq, Repr

def blockAt (cols : List String) (i : Nat) : LocnoParams :=
  ⟨cols.getD i "", cols.getD (i + 1) "", cols.getD (i + 2) "", cols.getD (i + 3) "",
    cols.getD (i + 4) ""⟩

/-- Embeds the while loop of extraction.py lines 101-118: starting after the
timestamp column, while a complete 5-column block remains, the block head is
split; when it has at least two tokens the second token is the asset
identifier and the block of 5 columns is consumed, otherwise the scan slides
one column. -/
def scanCols (cols : List String) (i : Nat) : List (String × LocnoParams) :=
  if _h : i + 4 < cols.length then
    match tokens (cols.getD i "") with
    | _ :: locno :: _ => (locno, blockAt cols i) :: scanCols cols (i + 5)
    | _ => scanCols cols (i + 1)
  else []
termination_by cols.length - i
decreasing_by
  · omega
  · omega

/-- Embeds extraction.py lines 100-118: the locno map is the scan started at
column index 1 (column 0 is the timestamp column). -/
def locno_map (cols : List String) : List (String × LocnoParams) :=
  scanCols cols 1

/-- Decidable well-formedness of a header row: every stride-aligned block head
splits into at least two whitespace-separated tokens. -/
def wellFormedHeads (cols : List String) : Bool :=
  (List.range ((cols.length - 1) / 5)).all
    (fun k => decide (2 ≤ (tokens (cols.getD (1 + 5 * k) "")).length))

/-! ## Multi-source time-grid reconciler (report_othermakes.py) -/

/-- Reconciler timestamps: seconds since an epoch. -/
abbrev Ts := Nat

def trimChars (l : List Char) : List Char :=
  ((l.dropWhile Char.isWhitespace).reverse.dropWhile Char.isWhitespace).reverse

/-- Embeds `TRIM(UPPER(asset_col))` of the reconciler query
(report_othermakes.py line 81) and `locno.strip().upper()` of line 183:
surrounding whitespace is removed and letters are upper-cased. -/
def normAsset (s : String) : String :=
  String.mk ((trimChars s.toList).map Char.toUpper)

/-- Canonical metric record selected by the reconciler query
(report_othermakes.py lines 81-86). -/
structure RecMetrics where
  active_power_generation : Option ℚ
  windspeed_outside_nacelle : Option ℚ
  temperature_outside_nacelle : Option ℚ
  winddirection_outside_nacelle : Option ℚ
  deriving DecidableEq, Repr

/-- Row of one source table as fetched by the reconciler query, after the
column aliasing of report_othermakes.py lines 80-89. -/
structure SrcRow where
  asset : String
  datetime : Ts
  active_power_generation : Option ℚ
  windspeed_outside_nacelle : Option ℚ
  temperature_outside_nacelle : Option ℚ
  winddirection_outside_nacelle : Option ℚ
  deriving DecidableEq, Repr

def SrcRow.metrics (r : SrcRow) : RecMetrics :=
  ⟨r.active_power_generation, r.windspeed_outside_nacelle, r.temperature_outside_nacelle,
    r.winddirection_outside_nacelle⟩

def rowLe (a b : SrcRow) : Prop :=
  a.datetime ≤ b.datetime

instance : DecidableRel rowLe := fun a b => Nat.decLe a.datetime b.datetime

/-- Embeds `group.sort_values("datetime")` of report_othermakes.py line 99.
The source uses pandas' default sort kind (quicksort), which does not
specify the relative order of rows sharing a timestamp; the embedding picks
one admissible ordering (an insertion sort).  No theorem of this file
depends on the order of rows that share a timestamp. -/
def sortRows (rows : List SrcRow) : List SrcRow :=
  List.insertionSort rowLe rows

def dedupFirstAux (seen : List Ts) : List SrcRow → List SrcRow
  | [] => []
  | r :: rs =>
    if r.datetime ∈ seen then dedupFirstAux seen rs
    else r :: dedupFirstAux (r.datetime :: seen) rs

/-- Embeds `group[~group.index.duplicated(keep='first')]` of
report_othermakes.py line 102: of several rows sharing a timestamp only the
first occurrence is kept. -/
def dedupFirst (l : List SrcRow) : List SrcRow :=
  dedupFirstAux [] l

/-- Embeds the per-asset group processing of report_othermakes.py lines
97-102: sort by timestamp, keep the first occurrence of each timestamp, and
index the group by timestamp. -/
def processGroup (rows : List SrcRow) : List (Ts × RecMetrics) :=
  (dedupFirst (sortRows rows)).map (fun r => (r.datetime, r.metrics))

def tableAssets (t : List SrcRow) : List String :=
  (t.map (fun r => normAsset r.asset)).dedup

def groupRows (t : List SrcRow) (a : String) : List SrcRow :=
  t.filter (fun r => decide (normAsset r.asset = a))

/-- Per-asset data map: asset key to its processed per-asset series. -/
abbrev DataMap := List (Entry String (List (Ts × RecMetrics)))

/-- Embeds the body of the per-table loop of report_othermakes.py lines
96-103: every normalized asset of the table gets its processed group written
into data_map, overwriting whatever an earlier table stored for that asset. -/
def insertTable (m : DataMap) (t : List SrcRow) : DataMap :=
  (tableAssets t).foldl (fun m2 a => upsertOne m2 ⟨a, processGroup (groupRows t a)⟩) m

/-- Embeds the data_map construction of report_othermakes.py lines 77-109:
the tables are visited in their fixed order (inhouse_scada_data, gtmw,
scada_data_enercon); each table's per-asset groups are assigned into the one
shared data_map.  The range restriction and column aliasing of the SQL query
are applied upstream, so each table is given as its fetched row list. -/
def fetch_all_data (tables : List (List SrcRow)) : DataMap :=
  tables.foldl insertTable []

def hasAsset (t : List SrcRow) (a : String) : Bool :=
  t.any (fun r => decide (normAsset r.asset = a))

/-- Last table of the list that contains the asset, if any. -/
def lastTableWith (tables : List (List SrcRow)) (a : String) : Option (List SrcRow) :=
  tables.reverse.find? (fun t => hasAsset t a)

/-- Embeds `pd.date_range(start, end, freq)` of report_othermakes.py line 45
over seconds-since-epoch timestamps: every instant start, start + step,
start + 2 step, ... that does not pass stop. -/
def date_range (start stop step : Nat) : List Nat :=
  if start ≤ stop then (List.range ((stop - start) / step + 1)).map (fun i => start + step * i)
  else []

/-- Embeds the daily master_index of report_othermakes.py lines 42-45: the
range runs from 00:00:00 to 23:59:59 of the requested day at a 10-minute
(600-second) frequency; d0 is the day's midnight. -/
def master_index (d0 : Nat) : List Nat :=
  date_range d0 (d0 + 86399) 600

/-- Columns requested by the report structure of report_othermakes.py lines
165-169. -/
def structureCols : List String :=
  ["temperature_outside_nacelle", "windspeed_outside_nacelle",
    "winddirection_outside_nacelle"]

def getCol (c : String) (m : RecMetrics) : Option ℚ :=
  if c = "active_power_generation" then m.active_power_generation
  else if c = "windspeed_outside_nacelle" then m.windspeed_outside_nacelle
  else if c = "temperature_outside_nacelle" then m.temperature_outside_nacelle
  else if c = "winddirection_outside_nacelle" then m.winddirection_outside_nacelle
  else none

def seriesLookup (series : List (Ts × RecMetrics)) (t : Ts) : Option RecMetrics :=
  (series.find? (fun p => decide (p.1 = t))).map Prod.snd

/-- Embeds the per-asset block of report_othermakes.py lines 178-206: the
asset's frame is looked up under the normalized identifier; a present frame
is reindexed onto the grid (grid instants absent from the series become
null rows); an absent frame becomes a frame with the grid as index and no
data columns, so every structure column falls into the None-series branch
of lines 203-206. -/
def assetColumns (m : DataMap) (grid : List Ts) (locno : String) : List (List (Option ℚ)) :=
  match storeLookup m (normAsset locno) with
  | some series =>
    structureCols.map (fun c => grid.map (fun t => (seriesLookup series t).bind (getCol c)))
  | none => structureCols.map (fun _ => grid.map (fun _ => (none : Option ℚ)))

/-- Embeds the machine loop of report_othermakes.py lines 178-208 at the
data-column level: one column group per catalogue asset, in catalogue
order. -/
def buildReport (catalogue : List String) (m : DataMap) (grid : List Ts) :
    List (List (Option ℚ)) :=
  (catalogue.map (fun a => assetColumns m grid a)).flatten

/-! ## API read path (api/views.py scada_by_date) -/

/-- Row shape selected by the .values(...) projection of api/views.py
lines 23-30. -/
structure ApiReading where
  datetime : Ts
  locno : String
  outdoor_temp : Option ℚ
  wind_speed : Option ℚ
  active_power : Option ℚ
  frequency : Option ℚ
  deriving DecidableEq, Repr

/-- Embeds the range filter of api/views.py lines 20-22: datetime at or after
the day's midnight and strictly before the next midnight. -/
def inDay (dayStart : Nat) (r : ApiReading) : Bool :=
  decide (dayStart ≤ r.datetime ∧ r.datetime < dayStart + 86400)

/-- Embeds api/views.py scada_by_date lines 20-32: the day's readings are
fetched and silently cut to the first 1000 by the slice [:1000]; the response
carries the resulting rows and nothing else (no marker that rows were
dropped). -/
def scada_by_date (store : List ApiReading) (dayStart : Nat) : List ApiReading :=
  (store.filter (inDay dayStart)).take 1000

/-! ## Concrete data used by counterexamples and witnesses -/

/-- Row of asset A1 as the first-listed source table (inhouse) would fetch it,
carrying active power 1. -/
def exRowInhouse : SrcRow :=
  ⟨"A1", 0, some 1, none, none, none⟩

/-- Row of the same asset and timestamp as a later-listed source table would
fetch it, carrying active power 2. -/
def exRowLater : SrcRow :=
  ⟨"A1", 0, some 2, none, none, none⟩

/-- Enercon raw row whose timestamp has nonzero seconds. -/
def exEnerconRaw : EnerconRaw :=
  ⟨"01-01-2022 00:00:37", "A1", some 100, some 10, some 5, some 20⟩

/-! # Theorems -/

/-! ## Upsert store lemmas (claim C1) -/

theorem keysOf_cons {κ μ : Type} (e : Entry κ μ) (s : List (Entry κ μ)) :
    keysOf (e :: s) = e.key :: keysOf s := rfl

theorem keysOf_upsertOne {κ μ : Type} [DecidableEq κ] (s : List (Entry κ μ)) (r : Entry κ μ) :
    keysOf (upsertOne s r) = if r.key ∈ keysOf s then keysOf s else keysOf s ++ [r.key] := by
  induction s with
  | nil => simp [upsertOne, keysOf]
  | cons e s ih =>
    by_cases h : e.key = r.key
    · have hm : r.key ∈ keysOf (e :: s) := by
        rw [keysOf_cons, h]
        exact List.mem_cons_self _ _
      rw [if_pos hm]
      simp [upsertOne, h, keysOf_cons]
    · have hstep : upsertOne (e :: s) r = e :: upsertOne s r := by simp [upsertOne, h]
      rw [hstep, keysOf_cons, ih]
      by_cases h2 : r.key ∈ keysOf s
      · rw [if_pos h2, if_pos (by rw [keysOf_cons]; exact List.mem_cons_of_mem _ h2), keysOf_cons]
      · have hm : r.key ∉ keysOf (e :: s) := by
          rw [keysOf_cons]
          intro hmem
          rcases List.mem_cons.mp hmem with h3 | h3
          · exact h h3.symm
          · exact h2 h3
        rw [if_neg h2, if_neg hm, keysOf_cons, List.cons_append]

theorem mem_keysOf_upsertOne_self {κ μ : Type} [DecidableEq κ] (s : List (Entry κ μ))
    (r : Entry κ μ) : r.key ∈ keysOf (upsertOne s r) := by
  rw [keysOf_upsertOne]
  split_ifs with h
  · exact h
  · simp

theorem mem_keysOf_upsertOne_of_mem {κ μ : Type} [DecidableEq κ] {s : List (Entry κ μ)}
    {k : κ} (r : Entry κ μ) (h : k ∈ keysOf s) : k ∈ keysOf (upsertOne s r) := by
  rw [keysOf_upsertOne]
  split_ifs
  · exact h
  · simp [h]

theorem keysOf_upsertOne_of_mem {κ μ : Type} [DecidableEq κ] {s : List (Entry κ μ)}
    {r : Entry κ μ} (h : r.key ∈ keysOf s) : keysOf (upsertOne s r) = keysOf s := by
  rw [keysOf_upsertOne, if_pos h]

theorem keysOf_upsertOne_nodup {κ μ : Type} [DecidableEq κ] {s : List (Entry κ μ)}
    (r : Entry κ μ) (h : (keysOf s).Nodup) : (keysOf (upsertOne s r)).Nodup := by
  rw [keysOf_upsertOne]
  split_ifs with hm
  · exact h
  · simp [List.nodup_append, h, hm]

theorem upsertOne_length_of_mem {κ μ : Type} [DecidableEq κ] {s : List (Entry κ μ)}
    {r : Entry κ μ} (h : r.key ∈ keysOf s) : (upsertOne s r).length = s.length := by
  induction s with
  | nil => simp [keysOf] at h
  | cons e s ih =>
    by_cases he : e.key = r.key
    · simp [upsertOne, he]
    · have h2 : r.key ∈ keysOf s := by
        rcases (by simpa [keysOf_cons] using h) with h3 | h3
        · exact absurd h3.symm he
        · exact h3
      simp [upsertOne, he, ih h2]

theorem storeLookup_upsertOne {κ μ : Type} [DecidableEq κ] (s : List (Entry κ μ))
    (r : Entry κ μ) (k : κ) :
    storeLookup (upsertOne s r) k = if k = r.key then some r.val else storeLookup s k := by
  induction s with
  | nil =>
    by_cases h : k = r.key
    · simp [upsertOne, storeLookup, h]
    · simp [upsertOne, storeLookup, h, Ne.symm h]
  | cons e s ih =>
    by_cases he : e.key = r.key
    · have hstep : upsertOne (e :: s) r = ⟨e.key, r.val⟩ :: s := by simp [upsertOne, he]
      rw [hstep]
      by_cases h : k = r.key
      · have hek : e.key = k := by rw [he, h]
        simp [storeLookup, List.find?_cons, hek, h]
      · have hek : ¬ e.key = k := fun hh => h (by rw [← hh, he])
        simp [storeLookup, List.find?_cons, hek, h]
    · have hstep : upsertOne (e :: s) r = e :: upsertOne s r := by simp [upsertOne, he]
      rw [hstep]
      by_cases hk : e.key = k
      · have h : ¬ k = r.key := fun hh => he (by rw [hk, hh])
        simp [storeLookup, List.find?_cons, hk, h]
      · simp only [storeLookup, List.find?_cons] at ih ⊢
        simp [hk, ih]

theorem storeLookup_eq_none_of_not_mem {κ μ : Type} [DecidableEq κ] {s : List (Entry κ μ)}
    {k : κ} (h : k ∉ keysOf s) : storeLookup s k = none := by
  induction s with
  | nil => rfl
  | cons e s ih =>
    have h1 : ¬ e.key = k := fun hh => h (by simp [keysOf_cons, hh])
    have h2 : k ∉ keysOf s := fun hh => h (by simp [keysOf_cons, hh])
    simp [storeLookup, h1] at ih ⊢
    exact ih h2

theorem upsertBatch_cons {κ μ : Type} [DecidableEq κ] (s : List (Entry κ μ)) (r : Entry κ μ)
    (b : List (Entry κ μ)) : upsertBatch s (r :: b) = upsertBatch (upsertOne s r) b := rfl

theorem mem_keysOf_upsertBatch_of_mem {κ μ : Type} [DecidableEq κ] {s : List (Entry κ μ)}
    {k : κ} (b : List (Entry κ μ)) (h : k ∈ keysOf s) : k ∈ keysOf (upsertBatch s b) := by
  induction b generalizing s with
  | nil => exact h
  | cons r b ih => exact ih (mem_keysOf_upsertOne_of_mem r h)

theorem mem_keysOf_upsertBatch {κ μ : Type} [DecidableEq κ] {r : Entry κ μ}
    (b s : List (Entry κ μ)) : r ∈ b → r.key ∈ keysOf (upsertBatch s b) := by
  induction b generalizing s with
  | nil => intro hr; cases hr
  | cons a b ih =>
    intro hr
    rcases List.mem_cons.mp hr with hr | hr
    · subst hr
      exact mem_keysOf_upsertBatch_of_mem b (mem_keysOf_upsertOne_self s r)
    · exact ih (upsertOne s a) hr

theorem keysOf_upsertBatch_nodup {κ μ : Type} [DecidableEq κ] {s : List (Entry κ μ)}
    (b : List (Entry κ μ)) (h : (keysOf s).Nodup) : (keysOf (upsertBatch s b)).Nodup := by
  induction b generalizing s with
  | nil => exact h
  | cons r b ih => exact ih (keysOf_upsertOne_nodup r h)

theorem keysOf_upsertBatch_of_covered {κ μ : Type} [DecidableEq κ] {s b : List (Entry κ μ)}
    (h : ∀ r ∈ b, r.key ∈ keysOf s) : keysOf (upsertBatch s b) = keysOf s := by
  induction b generalizing s with
  | nil => rfl
  | cons r b ih =>
    rw [upsertBatch_cons, ih, keysOf_upsertOne_of_mem (h r (by simp))]
    intro a ha
    exact mem_keysOf_upsertOne_of_mem r (h a (by simp [ha]))

theorem storeLookup_upsertBatch {κ μ : Type} [DecidableEq κ] (s b : List (Entry κ μ)) (k : κ) :
    storeLookup (upsertBatch s b) k =
      match lastVal b k with
      | some v => some v
      | none => storeLookup s k := by
  induction b generalizing s with
  | nil => rfl
  | cons e b ih =>
    rw [upsertBatch_cons, ih]
    cases hl : lastVal b k with
    | some v =>
      have hcons : lastVal (e :: b) k = some v := by simp [lastVal, hl]
      rw [hcons]
    | none =>
      have hcons : lastVal (e :: b) k = if e.key = k then some e.val else none := by
        simp [lastVal, hl]
      rw [storeLookup_upsertOne, hcons]
      by_cases h : k = e.key
      · simp [h]
      · have h2 : ¬ e.key = k := fun hh => h hh.symm
        simp [h, h2]

theorem store_ext {κ μ : Type} [DecidableEq κ] (s1 s2 : List (Entry κ μ))
    (hk : keysOf s1 = keysOf s2) (hn : (keysOf s1).Nodup)
    (hl : ∀ k, storeLookup s1 k = storeLookup s2 k) : s1 = s2 := by
  induction s1 generalizing s2 with
  | nil =>
    cases s2 with
    | nil => rfl
    | cons e2 t2 => exact absurd hk (by simp [keysOf])
  | cons e1 t1 ih =>
    cases s2 with
    | nil => exact absurd hk (by simp [keysOf])
    | cons e2 t2 =>
      have hkey : e1.key = e2.key ∧ keysOf t1 = keysOf t2 := by
        simpa [keysOf_cons] using hk
      have hv : some e1.val = some e2.val := by
        have h := hl e1.key
        simpa [storeLookup, List.find?_cons, hkey.1.symm] using h
      have hval : e1.val = e2.val := Option.some.inj hv
      have he : e1 = e2 := by
        rw [show e1 = (⟨e1.key, e1.val⟩ : Entry κ μ) from rfl, hkey.1, hval]
      have hnc : e1.key ∉ keysOf t1 ∧ (keysOf t1).Nodup := by
        have hn2 : (e1.key :: keysOf t1).Nodup := by simpa [keysOf_cons] using hn
        exact List.nodup_cons.mp hn2
      have hhead2 : e1.key ∉ keysOf t2 := hkey.2 ▸ hnc.1
      have htl : ∀ k, storeLookup t1 k = storeLookup t2 k := by
        intro k
        by_cases hke : k = e1.key
        · rw [hke, storeLookup_eq_none_of_not_mem hnc.1, storeLookup_eq_none_of_not_mem hhead2]
        · have hne : ¬ e1.key = k := fun hh => hke hh.symm
          have hne2 : ¬ e2.key = k := fun hh => hke (hkey.1 ▸ hh).symm
          have h := hl k
          simpa [storeLookup, List.find?_cons, hne, hne2] using h
      rw [he, ih t2 hkey.2 hnc.2 htl]

/-- C1: upsert ingestion is idempotent per key.  For every source table
(modelled by the generic upsert store, instantiated by the per-table key and
metric types), (i) after any sequence of ingested batches the stored keys are
still pairwise distinct, so no two stored rows share (timestamp, asset_id);
(ii) upserting a reading whose key is already stored overwrites its metric
columns with the new values and adds no row; (iii) re-running the same batch
leaves the store exactly as one run of it. -/
theorem C1_upsert_idempotent {κ μ : Type} [DecidableEq κ] (s b : List (Entry κ μ))
    (hs : (keysOf s).Nodup) :
    (∀ batches : List (List (Entry κ μ)), (keysOf (batches.foldl upsertBatch s)).Nodup)
    ∧ (∀ r : Entry κ μ, r.key ∈ keysOf s →
        (upsertOne s r).length = s.length ∧ storeLookup (upsertOne s r) r.key = some r.val)
    ∧ upsertBatch (upsertBatch s b) b = upsertBatch s b := by
  refine ⟨?_, ?_, ?_⟩
  · intro batches
    induction batches generalizing s with
    | nil => exact hs
    | cons b2 bs ih => exact ih (upsertBatch s b2) (keysOf_upsertBatch_nodup b2 hs)
  · intro r hr
    exact ⟨upsertOne_length_of_mem hr, by rw [storeLookup_upsertOne, if_pos rfl]⟩
  · apply store_ext
    · exact keysOf_upsertBatch_of_covered (fun r hr => mem_keysOf_upsertBatch b s hr)
    · exact keysOf_upsertBatch_nodup b (keysOf_upsertBatch_nodup b hs)
    · intro k
      rw [storeLookup_upsertBatch, storeLookup_upsertBatch]
      cases hl : lastVal b k <;> simp

/-- Witness for C1 at a concrete store and batch over the (timestamp,
asset_id) key of the scada_data table. -/
theorem C1_upsert_idempotent_witness :
    (keysOf ([⟨(0, "A"), (1 : ℚ)⟩] : List (Entry (Nat × String) ℚ))).Nodup
    ∧ upsertBatch (upsertBatch ([⟨(0, "A"), (1 : ℚ)⟩] : List (Entry (Nat × String) ℚ))
          [⟨(0, "A"), 2⟩, ⟨(1, "B"), 3⟩]) [⟨(0, "A"), 2⟩, ⟨(1, "B"), 3⟩]
      = upsertBatch ([⟨(0, "A"), (1 : ℚ)⟩] : List (Entry (Nat × String) ℚ))
          [⟨(0, "A"), 2⟩, ⟨(1, "B"), 3⟩] :=
  ⟨by decide, (C1_upsert_idempotent _ _ (by decide)).2.2⟩

/-! ## Reconciler merge lemmas (claim C2) -/

theorem storeLookup_foldl_upsert {μ : Type} (f : String → μ) (l : List String)
    (m : List (Entry String μ)) (a : String) :
    storeLookup (l.foldl (fun m2 x => upsertOne m2 ⟨x, f x⟩) m) a
      = if a ∈ l then some (f a) else storeLookup m a := by
  induction l generalizing m with
  | nil => simp
  | cons x l ih =>
    simp only [List.foldl_cons]
    rw [ih]
    by_cases h2 : a ∈ l
    · rw [if_pos h2, if_pos (List.mem_cons_of_mem _ h2)]
    · rw [if_neg h2, storeLookup_upsertOne]
      by_cases hax : a = x
      · subst hax
        rw [if_pos rfl, if_pos (List.mem_cons_self _ _)]
      · rw [if_neg hax, if_neg (by
          intro hmem
          rcases List.mem_cons.mp hmem with h3 | h3
          · exact hax h3
          · exact h2 h3)]

theorem mem_tableAssets (t : List SrcRow) (a : String) :
    a ∈ tableAssets t ↔ hasAsset t a = true := by
  simp [tableAssets, hasAsset, List.mem_dedup, List.mem_map, List.any_eq_true,
    decide_eq_true_eq]

theorem storeLookup_insertTable (m : DataMap) (t : List SrcRow) (a : String) :
    storeLookup (insertTable m t) a
      = if hasAsset t a = true then some (processGroup (groupRows t a))
        else storeLookup m a := by
  unfold insertTable
  rw [storeLookup_foldl_upsert (fun x => processGroup (groupRows t x))]
  by_cases h : a ∈ tableAssets t
  · rw [if_pos h, if_pos ((mem_tableAssets t a).mp h)]
  · rw [if_neg h, if_neg (fun hh => h ((mem_tableAssets t a).mpr hh))]

/-- C2 (amended): the data_map entry of an asset comes from the LAST table of
the fixed iteration order (inhouse, gtmw, enercon) that contains the asset,
because each table assignment overwrites the previous table's entry for that
asset wholesale; the first-listed source does NOT win. -/
theorem C2_last_source_wins (tables : List (List SrcRow)) (a : String) :
    storeLookup (fetch_all_data tables) a
      = (lastTableWith tables a).map (fun t => processGroup (groupRows t a)) := by
  induction tables using List.reverseRecOn with
  | nil => rfl
  | append_singleton ts t ih =>
    have hfold : fetch_all_data (ts ++ [t]) = insertTable (fetch_all_data ts) t := by
      simp [fetch_all_data]
    have hrev : (ts ++ [t]).reverse = t :: ts.reverse := by simp
    have hlast : lastTableWith (ts ++ [t]) a
        = if hasAsset t a = true then some t else lastTableWith ts a := by
      rw [lastTableWith, hrev, List.find?_cons]
      cases hha : hasAsset t a <;> simp [hha, lastTableWith]
    rw [hfold, storeLookup_insertTable, hlast, ih]
    by_cases hha : hasAsset t a = true
    · simp [hha]
    · simp [hha]

/-- C2 counterexample: with the same normalized asset "A1" present at the
same timestamp in two source tables, the reconciler's output for the asset
is the later-listed table's series, not the earlier-listed one as the claim
states. -/
theorem C2_counterexample :
    storeLookup (fetch_all_data [[exRowInhouse], [exRowLater]]) "A1"
        = some [(0, (⟨some 2, none, none, none⟩ : RecMetrics))]
    ∧ storeLookup (fetch_all_data [[exRowInhouse], [exRowLater]]) "A1"
        ≠ some (processGroup (groupRows [exRowInhouse] "A1")) := by
  constructor
  · decide
  · decide

/-! ## Time-grid lemmas (claim C4) -/

/-- C4: the TimeGrid of a one-day range at 10-minute (600-second) interval
has exactly 144 instants, begins at the day's midnight, and in general
date_range is strictly increasing and contains exactly the interval
boundaries start + k*step that do not pass the end of the range, the start
included. -/
theorem C4_time_grid (d0 start stop step : Nat) (hstep : 0 < step) :
    (master_index d0).length = 144
    ∧ (master_index d0).head? = some d0
    ∧ (date_range start stop step).Pairwise (· < ·)
    ∧ (∀ t, t ∈ date_range start stop step ↔ ∃ k, t = start + step * k ∧ t ≤ stop) := by
  refine ⟨?_, ?_, ?_, ?_⟩
  · rw [master_index, date_range, if_pos (Nat.le_add_right _ _)]
    simp only [List.length_map, List.length_range, Nat.add_sub_cancel_left]
  · rw [master_index, date_range, if_pos (Nat.le_add_right _ _)]
    rw [Nat.add_sub_cancel_left]
    rw [List.range_succ_eq_map]
    simp
  · rw [date_range]
    split_ifs with hss
    · refine List.pairwise_map.mpr ?_
      exact (List.pairwise_lt_range _).imp
        (fun hij => Nat.add_lt_add_left (mul_lt_mul_of_pos_left hij hstep) start)
    · simp
  · intro t
    rw [date_range]
    split_ifs with hss
    · simp only [List.mem_map, List.mem_range]
      constructor
      · rintro ⟨i, hi, rfl⟩
        refine ⟨i, rfl, ?_⟩
        have hile : i ≤ (stop - start) / step := Nat.lt_succ_iff.mp hi
        have h2 : i * step ≤ stop - start := (Nat.le_div_iff_mul_le hstep).mp hile
        have h3 : step * i ≤ stop - start := by rw [Nat.mul_comm]; exact h2
        calc start + step * i ≤ start + (stop - start) := Nat.add_le_add_left h3 start
          _ = stop := Nat.add_sub_cancel' hss
      · rintro ⟨k, rfl, hk⟩
        refine ⟨k, ?_, rfl⟩
        rw [Nat.lt_succ_iff, Nat.le_div_iff_mul_le hstep]
        have h1 : step * k + start ≤ stop := by rw [Nat.add_comm]; exact hk
        have h2 : step * k ≤ stop - start := Nat.le_sub_of_add_le h1
        rw [Nat.mul_comm]
        exact h2
    · simp only [List.not_mem_nil, false_iff]
      rintro ⟨k, rfl, hk⟩
      exact hss (le_trans (Nat.le_add_right start (step * k)) hk)

/-- Witness for C4 at midnight zero and at a small explicit range. -/
theorem C4_time_grid_witness :
    0 < 600 ∧ (master_index 0).length = 144 ∧ (master_index 0).head? = some 0 :=
  ⟨by decide, (C4_time_grid 0 0 0 600 (by decide)).1,
    (C4_time_grid 0 0 0 600 (by decide)).2.1⟩

/-! ## Report assembly lemmas (claim C6) -/

theorem assetColumns_length (m : DataMap) (grid : List Ts) (locno : String) :
    (assetColumns m grid locno).length = 3 := by
  unfold assetColumns
  cases storeLookup m (normAsset locno) <;> simp [structureCols]

theorem buildReport_length (cat : List String) (m : DataMap) (grid : List Ts) :
    (buildReport cat m grid).length = 3 * cat.length := by
  unfold buildReport
  induction cat with
  | nil => rfl
  | cons a cat ih =>
    simp only [List.map_cons, List.flatten_cons, List.length_append, List.length_cons]
    rw [assetColumns_length, ih]
    omega

theorem map_const_none_eq_replicate (grid : List Ts) :
    grid.map (fun _ => (none : Option ℚ)) = List.replicate grid.length none := by
  induction grid with
  | nil => rfl
  | cons t g ih => simp [List.replicate_succ, ih]

/-- C6: report membership is driven by the metadata catalogue: the report has
one 3-column group per catalogue asset regardless of data presence, and an
asset with no rows in any source table (no data_map entry under its
normalized identifier) still produces its column group as fully-null series
of exactly the grid's length. -/
theorem C6_missing_asset_null_series (cat : List String) (m : DataMap) (grid : List Ts)
    (a : String) (h : storeLookup m (normAsset a) = none) :
    (buildReport cat m grid).length = 3 * cat.length
    ∧ assetColumns m grid a = List.replicate 3 (List.replicate grid.length none) := by
  refine ⟨buildReport_length cat m grid, ?_⟩
  have h2 : assetColumns m grid a
      = structureCols.map (fun _ => grid.map (fun _ => (none : Option ℚ))) := by
    unfold assetColumns
    rw [h]
  rw [h2, show (structureCols.map (fun _ => grid.map (fun _ => (none : Option ℚ))))
      = List.replicate 3 (grid.map (fun _ => (none : Option ℚ))) from rfl,
    map_const_none_eq_replicate]

/-- Witness for C6: an asset absent from the empty data map yields three
all-null columns of the grid's length. -/
theorem C6_missing_asset_null_series_witness :
    storeLookup ([] : DataMap) (normAsset "A1") = none
    ∧ assetColumns [] [0, 600] "A1" = List.replicate 3 (List.replicate 2 none) :=
  ⟨rfl, (C6_missing_asset_null_series ["A1"] [] [0, 600] "A1" rfl).2⟩

/-! ## Header detection lemmas (claim C7) -/

theorem headerRowAux_eq_some (l : List String) :
    ∀ n i, headerRowAux n l = some i →
      ∃ j, j < l.length ∧ i = n + j ∧ markerFound (l.getD j "") = true
        ∧ ∀ m2 < j, markerFound (l.getD m2 "") = false := by
  induction l with
  | nil => intro n i h; cases h
  | cons s rest ih =>
    intro n i h
    rw [headerRowAux] at h
    by_cases hm : markerFound s = true
    · rw [if_pos hm] at h
      have hni : n = i := Option.some.inj h
      exact ⟨0, by simp, by omega, by simpa using hm,
        fun m2 hm2 => absurd hm2 (Nat.not_lt_zero m2)⟩
    · rw [if_neg hm] at h
      obtain ⟨j, hj, hij, hmt, hprev⟩ := ih (n + 1) i h
      refine ⟨j + 1, by simpa using Nat.succ_lt_succ hj, by omega, by simpa using hmt, ?_⟩
      intro m2 hm2
      cases m2 with
      | zero => simpa using hm
      | succ m3 => simpa using hprev m3 (by omega)

theorem headerRowAux_eq_none (l : List String) :
    ∀ n, headerRowAux n l = none ↔ ∀ s ∈ l, markerFound s = false := by
  induction l with
  | nil => intro n; simp [headerRowAux]
  | cons s rest ih =>
    intro n
    rw [headerRowAux]
    by_cases hm : markerFound s = true
    · rw [if_pos hm]
      simp [hm]
    · rw [if_neg hm]
      have hm2 : markerFound s = false := by simpa using hm
      rw [ih (n + 1)]
      simp [List.forall_mem_cons, hm2]

/-- C7: header detection returns the zero-based index of the first probe row
whose first cell contains the marker substring case-insensitively, reports
not-found exactly when no probe row matches, and on the concrete probe grid
whose rows 0-2 are unrelated text and whose row 3 starts with "Local Time"
it returns 3. -/
theorem C7_header_detection (probe : List String) (i : Nat) :
    (headerRow probe = some i →
      i < probe.length ∧ markerFound (probe.getD i "") = true
        ∧ ∀ j < i, markerFound (probe.getD j "") = false)
    ∧ (headerRow probe = none ↔ ∀ s ∈ probe, markerFound s = false)
    ∧ headerRow ["Report", "Generated 2022", "Sheet data", "Local Time WTG 01"] = some 3 := by
  refine ⟨?_, ?_, ?_⟩
  · intro h
    obtain ⟨j, hj, hij, hmt, hprev⟩ := headerRowAux_eq_some probe 0 i h
    have hji : j = i := by omega
    subst hji
    exact ⟨hj, hmt, fun m2 hm2 => hprev m2 hm2⟩
  · exact headerRowAux_eq_none probe 0
  · decide

/-- Witness for C7 at the concrete probe grid. -/
theorem C7_header_detection_witness :
    headerRow ["Report", "Generated 2022", "Sheet data", "Local Time WTG 01"] = some 3
    ∧ 3 < 4
    ∧ markerFound (["Report", "Generated 2022", "Sheet data",
        "Local Time WTG 01"].getD 3 "") = true := by
  have h := (C7_header_detection
    ["Report", "Generated 2022", "Sheet data", "Local Time WTG 01"] 3).1 (by decide)
  exact ⟨by decide, h.1, h.2.1⟩

/-! ## Column partitioner lemmas (claim C8) -/

theorem scanCols_eq (cols : List String) :
    ∀ d i, cols.length - i ≤ d →
      (∀ k, i + 5 * k + 4 < cols.length →
        2 ≤ (tokens (cols.getD (i + 5 * k) "")).length) →
      scanCols cols i = (List.range ((cols.length - i) / 5)).map
        (fun k => (tok2 (cols.getD (i + 5 * k) ""), blockAt cols (i + 5 * k))) := by
  intro d
  induction d with
  | zero =>
    intro i hd hwf
    have h4 : ¬ (i + 4 < cols.length) := by omega
    have h0 : cols.length - i = 0 := Nat.le_zero.mp hd
    rw [scanCols, dif_neg h4, h0]
    rfl
  | succ d ih =>
    intro i hd hwf
    by_cases h4 : i + 4 < cols.length
    · have hwf0 := hwf 0 (by omega)
      rw [show i + 5 * 0 = i from by omega] at hwf0
      obtain ⟨a, b, rest, htoks⟩ :
          ∃ a b rest, tokens (cols.getD i "") = a :: b :: rest := by
        rcases h5 : tokens (cols.getD i "") with _ | ⟨a, _ | ⟨b, rest⟩⟩
        · rw [h5] at hwf0; simp at hwf0
        · rw [h5] at hwf0; simp at hwf0
        · exact ⟨a, b, rest, rfl⟩
      have hstep : scanCols cols i = (b, blockAt cols i) :: scanCols cols (i + 5) := by
        rw [scanCols, dif_pos h4, htoks]
      have htail : scanCols cols (i + 5)
          = (List.range ((cols.length - (i + 5)) / 5)).map
              (fun k => (tok2 (cols.getD (i + 5 + 5 * k) ""), blockAt cols (i + 5 + 5 * k))) := by
        refine ih (i + 5) (by omega) ?_
        intro k hk
        have h6 := hwf (k + 1) (by omega)
        rw [show i + 5 * (k + 1) = i + 5 + 5 * k from by omega] at h6
        exact h6
      have hdiv : (cols.length - i) / 5 = (cols.length - (i + 5)) / 5 + 1 := by
        have h5le : 5 ≤ cols.length - i := by omega
        rw [Nat.div_eq_sub_div (by norm_num) h5le,
          show cols.length - i - 5 = cols.length - (i + 5) from by omega]
      rw [hstep, htail, hdiv, List.range_succ_eq_map, List.map_cons, List.map_map]
      congr 1
      · rw [show i + 5 * 0 = i from by omega, tok2, htoks]
        rfl
      · refine List.map_congr_left ?_
        intro k _
        show (tok2 (cols.getD (i + 5 + 5 * k) ""), blockAt cols (i + 5 + 5 * k))
          = (tok2 (cols.getD (i + 5 * (k + 1)) ""), blockAt cols (i + 5 * (k + 1)))
        rw [show i + 5 * (k + 1) = i + 5 + 5 * k from by omega]
    · rw [scanCols, dif_neg h4, Nat.div_eq_of_lt (by omega)]
      rfl

/-- C8: under the well-formedness condition that every stride-aligned block
head splits into at least two whitespace-separated tokens, the column
partitioner maps, for each complete 5-column stride after the timestamp
column, the second token of the stride's first column header to that
contiguous 5-column block, in left-to-right order, and drops the trailing
columns that do not fill a complete stride. -/
theorem C8_column_partitioner (cols : List String) (hwf : wellFormedHeads cols = true) :
    locno_map cols = (List.range ((cols.length - 1) / 5)).map
      (fun k => (tok2 (cols.getD (1 + 5 * k) ""), blockAt cols (1 + 5 * k))) := by
  have hwf2 : ∀ k, 1 + 5 * k + 4 < cols.length →
      2 ≤ (tokens (cols.getD (1 + 5 * k) "")).length := by
    intro k hk
    have h1 : (k + 1) * 5 ≤ cols.length - 1 := by omega
    have h2 : k + 1 ≤ (cols.length - 1) / 5 := (Nat.le_div_iff_mul_le (by norm_num)).mpr h1
    have hkmem : k ∈ List.range ((cols.length - 1) / 5) := List.mem_range.mpr (by omega)
    have hall := (List.all_eq_true.mp hwf) k hkmem
    exact of_decide_eq_true hall
  have h := scanCols_eq cols cols.length 1 (by omega) hwf2
  rw [locno_map, h]

/-- Witness for C8 at a concrete header row with two complete asset strides
and a trailing column that is dropped. -/
theorem C8_column_partitioner_witness :
    wellFormedHeads ["Local Time", "Temp WTG01 avg", "c2", "c3", "c4", "c5",
        "Temp WTG02 avg", "d2", "d3", "d4", "d5", "extra"] = true
    ∧ locno_map ["Local Time", "Temp WTG01 avg", "c2", "c3", "c4", "c5",
        "Temp WTG02 avg", "d2", "d3", "d4", "d5", "extra"]
      = [("WTG01", ⟨"Temp WTG01 avg", "c2", "c3", "c4", "c5"⟩),
          ("WTG02", ⟨"Temp WTG02 avg", "d2", "d3", "d4", "d5"⟩)] := by
  refine ⟨by decide, ?_⟩
  rw [C8_column_partitioner _ (by decide)]
  decide

/-! ## Coercion-failure asymmetry (claim C9) -/

/-- C9: numeric coercion failure is handled asymmetrically per path: every
metric cell that fails numeric coercion is stored as zero by the legacy
extraction path (to_float) and as null by the multi-vendor upsert path
(to_numeric), field by field. -/
theorem C9_coercion_asymmetry (c1 c2 c3 c4 c5 : RawCell) (locno device : String)
    (dt : DateTime) (q : Option String) :
    (to_numeric c1 = none → (mkSCADARecord locno dt ⟨c1, c2, c3, c4, c5⟩).outdoor_temp = 0)
    ∧ (to_numeric c2 = none → (mkSCADARecord locno dt ⟨c1, c2, c3, c4, c5⟩).wind_speed = 0)
    ∧ (to_numeric c3 = none → (mkSCADARecord locno dt ⟨c1, c2, c3, c4, c5⟩).nacelle_pos = 0)
    ∧ (to_numeric c4 = none → (mkSCADARecord locno dt ⟨c1, c2, c3, c4, c5⟩).active_power = 0)
    ∧ (to_numeric c5 = none → (mkSCADARecord locno dt ⟨c1, c2, c3, c4, c5⟩).frequency = 0)
    ∧ (to_numeric c1 = none →
        (mkGtmwRecord device dt q c1 c2 c3 c4).misalignment_percent = none)
    ∧ (to_numeric c2 = none → (mkGtmwRecord device dt q c1 c2 c3 c4).avg_active_power = none)
    ∧ (to_numeric c3 = none →
        (mkGtmwRecord device dt q c1 c2 c3 c4).avg_ambient_temperature = none)
    ∧ (to_numeric c4 = none → (mkGtmwRecord device dt q c1 c2 c3 c4).avg_wind_speed = none) := by
  have hz : ∀ c : RawCell, to_numeric c = none → to_float c = 0 := by
    intro c hc
    cases c with
    | num qq => simp [to_numeric] at hc
    | bad => rfl
  exact ⟨fun h => hz c1 h, fun h => hz c2 h, fun h => hz c3 h, fun h => hz c4 h,
    fun h => hz c5 h, fun h => h, fun h => h, fun h => h, fun h => h⟩

/-- Witness for C9 at a concrete failing cell. -/
theorem C9_coercion_asymmetry_witness :
    to_numeric RawCell.bad = none
    ∧ (mkSCADARecord "L1" ⟨2022, 1, 1, 0, 0, 0, 0⟩
        ⟨RawCell.bad, .num 1, .num 1, .num 1, .num 1⟩).outdoor_temp = 0
    ∧ (mkGtmwRecord "D1" ⟨2022, 1, 1, 0, 0, 0, 0⟩ none RawCell.bad (.num 1) (.num 1)
        (.num 1)).misalignment_percent = none :=
  ⟨rfl,
    (C9_coercion_asymmetry RawCell.bad (.num 1) (.num 1) (.num 1) (.num 1) "L1" "D1"
      ⟨2022, 1, 1, 0, 0, 0, 0⟩ none).1 rfl,
    (C9_coercion_asymmetry RawCell.bad (.num 1) (.num 1) (.num 1) (.num 1) "L1" "D1"
      ⟨2022, 1, 1, 0, 0, 0, 0⟩ none).2.2.2.2.2.1 rfl⟩

/-! ## Timestamp truncation per path (claim C3) -/

/-- C3 (amended): the legacy extraction path truncates every stored timestamp
to the whole minute (seconds and microseconds zero), but the enercon upsert
path stores the parsed timestamp unchanged, seconds included; truncation
does NOT hold on every ingestion path. -/
theorem C3_truncation_per_path :
    (∀ (dtRaw : Option DateTime) (assets : List (String × MetricCells)) (rec : SCADARecord),
        rec ∈ extractionProcessRow dtRaw assets →
          rec.datetime.second = 0 ∧ rec.datetime.microsecond = 0)
    ∧ (∀ (r : EnerconRaw) (rec : EnerconRecord), enerconProcessRow r = some rec →
        parseEnerconDate r.date = some rec.date) := by
  constructor
  · intro dtRaw assets rec hrec
    cases dtRaw with
    | none => simp [extractionProcessRow] at hrec
    | some dt =>
      simp only [extractionProcessRow] at hrec
      obtain ⟨p, hp, hrec⟩ := List.mem_map.mp hrec
      exact ⟨by rw [← hrec]; rfl, by rw [← hrec]; rfl⟩
  · intro r rec h
    unfold enerconProcessRow at h
    cases hp : parseEnerconDate r.date with
    | none => rw [hp] at h; simp at h
    | some dt =>
      rw [hp] at h
      have h2 : (⟨dt, r.asset_name, r.active_power_generation,
          r.wind_direction_outside_nacelle, r.wind_speed_outside_nacelle,
          r.temperature_outside_nacelle⟩ : EnerconRecord) = rec := Option.some.inj h
      rw [← h2]

/-- C3 counterexample: the enercon ingestion path keeps the nonzero seconds
of the raw timestamp "01-01-2022 00:00:37": the stored timestamp has second
37, not 0 as the claim requires of every ingestion path. -/
theorem C3_counterexample :
    (enerconProcessRow exEnerconRaw).map (fun rec => rec.date.second) = some 37
    ∧ (37 : Nat) ≠ 0 := by
  exact ⟨by decide, by decide⟩

/-- Witness for C3 at a concrete extraction row with seconds 37 in the parsed
timestamp. -/
theorem C3_truncation_per_path_witness :
    (⟨"L1", ⟨2022, 1, 1, 0, 0, 0, 0⟩, 1, 1, 1, 1, 1⟩ : SCADARecord) ∈
        extractionProcessRow (some ⟨2022, 1, 1, 0, 0, 37, 0⟩)
          [("L1", ⟨.num 1, .num 1, .num 1, .num 1, .num 1⟩)]
    ∧ (⟨2022, 1, 1, 0, 0, 0, 0⟩ : DateTime).second = 0 := by
  refine ⟨by decide, ?_⟩
  exact (C3_truncation_per_path.1 (some ⟨2022, 1, 1, 0, 0, 37, 0⟩)
    [("L1", ⟨.num 1, .num 1, .num 1, .num 1, .num 1⟩)]
    ⟨"L1", ⟨2022, 1, 1, 0, 0, 0, 0⟩, 1, 1, 1, 1, 1⟩ (by decide)).1

/-! ## API row limit (claim C10) -/

/-- C10: for every queried day the scada_by_date endpoint returns the day's
readings cut to at most 1000 rows: the response length is the minimum of 1000
and the number of stored readings of that day, so when more than 1000 rows
fall inside the day exactly 1000 are returned, and the response carries only
those rows, with no indication that rows were dropped. -/
theorem C10_api_limit (store : List ApiReading) (dayStart : Nat) :
    (scada_by_date store dayStart).length
        = min 1000 (store.filter (inDay dayStart)).length
    ∧ (scada_by_date store dayStart).length ≤ 1000 := by
  refine ⟨List.length_take _ _, ?_⟩
  rw [scada_by_date]
  exact List.length_take_le _ _

end Scada
